import Mathlib

/-!
Shallow embedding of asyncpg's Record object implementation
(src/asyncpg/protocol/record/recordobj.c) and proofs of its
specified properties.

Machine integers: Py_uhash_t is modelled as Nat reduced mod 2^64
(the SIZEOF_PY_UHASH_T > 4 configuration); Py_ssize_t indices are
modelled as Int.  Python objects are an abstract type; an object's
hash is an `Option Nat` (`none` models PyObject_Hash returning -1
with an error set).
-/

namespace ApgRecord

/-! ## Hashing (record_hash, recordobj.c lines 224-268) -/

def M64 : Nat := 2 ^ 64

def xxPrime1 : Nat := 11400714785074694791

def xxPrime2 : Nat := 14029467366897019727

def xxPrime5 : Nat := 2870177450012600261

/-- Rotate a 64-bit value left by 31 bits: `(x << 31) | (x >> 33)`.
The two parts occupy disjoint bit ranges for `x < 2^64`, so the
bitwise or is addition. -/
def xxRotate (x : Nat) : Nat :=
  (x * 2 ^ 31) % M64 + x / 2 ^ 33

/-- One lane step of record_hash's loop body:
`acc += lane * P2; acc = ROT(acc); acc *= P1`, all mod 2^64. -/
def hashStep (acc lane : Nat) : Nat :=
  (xxRotate ((acc + lane * xxPrime2) % M64)) * xxPrime1 % M64

/-- The loop of record_hash over the element hashes.  An element whose
hash computation fails (PyObject_Hash returning -1) is `none`; the
loop aborts and propagates the failure. -/
def hashFold (acc : Nat) : List (Option Nat) → Option Nat
  | [] => some acc
  | none :: _ => none
  | some lane :: rest => hashFold (hashStep acc lane) rest

/-- Finalization of record_hash: add the mangled input length and
avoid the reserved error value -1 (here 2^64 - 1). -/
def hashFinal (len acc : Nat) : Nat :=
  let acc2 := (acc + Nat.xor len (Nat.xor xxPrime5 3527539)) % M64
  if acc2 = M64 - 1 then 1546275796 else acc2

/-- record_hash: xxHash-style fold over the element hashes seeded with
PRIME5, with the element count mixed in at the end.  `none` models a
-1 return with a pending error from a failing element hash. -/
def record_hash (hs : List (Option Nat)) : Option Nat :=
  match hashFold xxPrime5 hs with
  | none => none
  | some acc => some (hashFinal hs.length acc)

/-- Modelled from the spec: the hash of an ordinary immutable ordered
sequence (a CPython tuple, whose hashing code is not part of this
repository).  The spec states the record formula is deliberately
identical to it: the same xxHash fold over the element hashes, the
same seed and the same length finalization. -/
def tupleHashFold (acc : Nat) : List (Option Nat) → Option Nat
  | [] => some acc
  | none :: _ => none
  | some lane :: rest =>
      tupleHashFold ((xxRotate ((acc + lane * xxPrime2) % M64)) * xxPrime1 % M64) rest

/-- Modelled from the spec: finalization of the ordinary tuple hash,
identical to the record finalization. -/
def tuple_hash (hs : List (Option Nat)) : Option Nat :=
  match tupleHashFold xxPrime5 hs with
  | none => none
  | some acc =>
      some (if (acc + Nat.xor hs.length (Nat.xor xxPrime5 3527539)) % M64 = M64 - 1
            then 1546275796
            else (acc + Nat.xor hs.length (Nat.xor xxPrime5 3527539)) % M64)

/-! ## Rich comparison (record_richcompare, recordobj.c lines 298-418)

Python objects are an abstract type `α`.  Element equality tests
(PyObject_RichCompareBool with Py_EQ) and the final rich comparison
(PyObject_RichCompare) are parameters returning `Option Bool`, where
`none` models an error return. -/

inductive PyOp where
  | lt
  | le
  | eq
  | ne
  | gt
  | ge
deriving DecidableEq, Repr

/-- The size-comparison switch at the end of record_richcompare. -/
def PyOp.onLengths : PyOp → Nat → Nat → Bool
  | .lt, a, b => decide (a < b)
  | .le, a, b => decide (a ≤ b)
  | .eq, a, b => decide (a = b)
  | .ne, a, b => decide (a ≠ b)
  | .gt, a, b => decide (b < a)
  | .ge, a, b => decide (b ≤ a)

/-- A comparison operand as classified by record_richcompare:
a plain tuple, an exact Record, a Record subclass instance, or any
other object (which is not supported). -/
inductive Operand (α : Type u) where
  | tupleOp (xs : List α)
  | recordOp (xs : List α)
  | recordSub (xs : List α)
  | otherOp
deriving Repr

/-- Element sequence of a supported operand (V_ITEM / W_ITEM access). -/
def Operand.elems : Operand α → Option (List α)
  | .tupleOp xs => some xs
  | .recordOp xs => some xs
  | .recordSub xs => some xs
  | .otherOp => none

/-- Result of a rich comparison: Py_NotImplemented or a boolean. -/
inductive CmpResult where
  | notImplemented
  | res (b : Bool)
deriving DecidableEq, Repr

/-- The scan loop of record_richcompare: find the first index in the
shared prefix where the elements are not equal, returning that pair.
`none` models an element comparison raising an error; `some none`
means no index in the shared prefix differs. -/
def scanFirstDiff (beq : α → α → Option Bool) : List α → List α → Option (Option (α × α))
  | _, [] => some none
  | [], _ => some none
  | x :: xs, y :: ys =>
    match beq x y with
    | none => none
    | some true => scanFirstDiff beq xs ys
    | some false => some (some (x, y))

/-- record_richcompare.  `beq` is PyObject_RichCompareBool with Py_EQ;
`rich` is PyObject_RichCompare on the first differing pair.  The outer
`Option` models a NULL (error) return. -/
def record_richcompare (beq : α → α → Option Bool) (rich : α → α → PyOp → Option Bool)
    (v w : Operand α) (op : PyOp) : Option CmpResult :=
  match v.elems, w.elems with
  | none, _ => some .notImplemented
  | _, none => some .notImplemented
  | some vs, some ws =>
    if op = .eq ∧ vs.length ≠ ws.length then
      some (.res false)
    else if op = .ne ∧ vs.length ≠ ws.length then
      some (.res true)
    else
      match scanFirstDiff beq vs ws with
      | none => none
      | some none => some (.res (op.onLengths vs.length ws.length))
      | some (some (x, y)) =>
        if op = .eq then some (.res false)
        else if op = .ne then some (.res true)
        else (rich x y op).map .res

/-! ## Records, positional access (record_item, record_subscript) -/

/-- Pending Python error kinds relevant to record access. -/
inductive PyErr (α : Type u) where
  | indexError
  | keyError (key : α)
  | runtimeError
  | typeError
deriving DecidableEq, Repr

/-- A value looked up in the descriptor's name-to-index mapping: a
Python index (PyIndex_Check passes, converted by PyNumber_AsSsize_t)
or some other object. -/
inductive Mapped where
  | idx (i : Int)
  | nonIndex
deriving DecidableEq, Repr

/-- ApgRecordDescObject: the mapping dictionary and the keys tuple.
`mapping n = none` models PyObject_GetItem failing (name absent). -/
structure Descriptor (α : Type u) where
  mapping : α → Option Mapped
  keys : List α

/-- ApgRecordObject: descriptor reference plus value slots. -/
structure RecordObj (α : Type u) where
  desc : Descriptor α
  slots : List α

/-- record_item: plain positional access, an IndexError outside
`[0, size)`. -/
def record_item (slots : List α) (i : Int) : Except (PyErr α) α :=
  if h : 0 ≤ i ∧ i < (slots.length : Int) then
    .ok (slots.get ⟨i.toNat, by omega⟩)
  else
    .error .indexError

/-- The integer path of record_subscript: a negative index has the
record size added before record_item runs. -/
def record_subscript_int (slots : List α) (i : Int) : Except (PyErr α) α :=
  record_item slots (if i < 0 then i + slots.length else i)

/-! ## Name-based access (record_item_by_name, record_get) -/

/-- Outcome of record_item_by_name: APG_ITEM_FOUND, APG_ITEM_NOT_FOUND
(KeyError set carrying the name), or APG_ERROR (RuntimeError
"invalid record descriptor"). -/
inductive ByName (α : Type u) where
  | found (v : α)
  | notFound (key : α)
  | descError
deriving DecidableEq, Repr

/-- record_item_by_name: resolve `item` through the descriptor mapping;
an absent name is APG_ITEM_NOT_FOUND; a non-index mapped value, a
negative resolved index, or an index outside the record is APG_ERROR. -/
def record_item_by_name (r : RecordObj α) (item : α) : ByName α :=
  match r.desc.mapping item with
  | none => .notFound item
  | some .nonIndex => .descError
  | some (.idx i) =>
    if i < 0 then .descError
    else
      match record_item r.slots i with
      | .error _ => .descError
      | .ok v => .found v

/-- The name path of record_subscript (`r[name]`): a found value is
returned, APG_ITEM_NOT_FOUND surfaces the KeyError, APG_ERROR the
RuntimeError. -/
def record_subscript_name (r : RecordObj α) (item : α) : Except (PyErr α) α :=
  match record_item_by_name r item with
  | .found v => .ok v
  | .notFound k => .error (.keyError k)
  | .descError => .error .runtimeError

/-- Result of the Record.get vectorcall entry point. -/
inductive GetResult (α : Type u) where
  | value (v : α)
  | errorReturn (e : PyErr α)
  | uninitKeyLookup
deriving DecidableEq, Repr

/-- record_get, transcribed with its exact control flow: with one
positional argument the default is Py_None (`defNone`); with two, the
second argument.  With any other count the code formats a TypeError
but does NOT return: it falls through past the (empty) kwnames check
and calls record_item_by_name with the local `key` still
uninitialized, modelled by `GetResult.uninitKeyLookup`.  On
APG_ITEM_NOT_FOUND the pending KeyError is cleared and the default is
returned; on APG_ERROR the RuntimeError propagates. -/
def record_get (r : RecordObj α) (defNone : α) (args : List α) : GetResult α :=
  match args with
  | [key] =>
    (match record_item_by_name r key with
     | .found v => .value v
     | .notFound _ => .value defNone
     | .descError => .errorReturn .runtimeError)
  | [key, defval] =>
    (match record_item_by_name r key with
     | .found v => .value v
     | .notFound _ => .value defval
     | .descError => .errorReturn .runtimeError)
  | _ => .uninitKeyLookup

/-! ## Value iterator (record_iter_next, record_iter_len) -/

/-- ApgRecordIterObject: the cursor and the Record reference,
`none` once the iterator is exhausted. -/
structure RecordIter (α : Type u) where
  it_index : Nat
  it_seq : Option (List α)
deriving Repr

/-- record_iter_next: yield the slot at the cursor and advance, or, at
the end, clear the Record reference and signal exhaustion (`none`). -/
def record_iter_next (it : RecordIter α) : Option α × RecordIter α :=
  match it.it_seq with
  | none => (none, it)
  | some seq =>
    if h : it.it_index < seq.length then
      (some (seq.get ⟨it.it_index, h⟩), ⟨it.it_index + 1, some seq⟩)
    else
      (none, ⟨it.it_index, none⟩)

/-- record_iter_len (`__length_hint__`): remaining count, 0 once the
Record reference is cleared. -/
def record_iter_len (it : RecordIter α) : Nat :=
  match it.it_seq with
  | none => 0
  | some seq => seq.length - it.it_index

/-- Drive a value iterator with the given fuel, collecting yielded
values until it signals exhaustion; returns the collected values and
the final iterator state. -/
def iterRun (it : RecordIter α) : Nat → List α × RecordIter α
  | 0 => ([], it)
  | fuel + 1 =>
    match record_iter_next it with
    | (none, it2) => ([], it2)
    | (some v, it2) =>
      let r := iterRun it2 fuel
      (v :: r.1, r.2)

/-! ## Items iterator (record_items_next) -/

/-- ApgRecordItemsObject: the cursor, the key iterator (remaining keys
of the descriptor's key tuple), and the Record reference; the last two
are cleared together on exhaustion. -/
structure RecordItemsIter (α : Type u) where
  it_index : Nat
  it_key_iter : Option (List α)
  it_seq : Option (List α)
deriving Repr

/-- record_items_next: pull the next key and the next value slot in
lockstep; if either side is exhausted first, clear both the key
iterator and the Record reference and signal exhaustion (`none`). -/
def record_items_next (it : RecordItemsIter α) : Option (α × α) × RecordItemsIter α :=
  match it.it_seq with
  | none => (none, it)
  | some seq =>
    match it.it_key_iter with
    | none => (none, ⟨it.it_index, none, none⟩)
    | some [] => (none, ⟨it.it_index, none, none⟩)
    | some (k :: krest) =>
      if h : it.it_index < seq.length then
        (some (k, seq.get ⟨it.it_index, h⟩), ⟨it.it_index + 1, some krest, some seq⟩)
      else
        (none, ⟨it.it_index, none, none⟩)

/-- Drive an items iterator with the given fuel, collecting yielded
pairs until it signals exhaustion. -/
def itemsRun (it : RecordItemsIter α) : Nat → List (α × α) × RecordItemsIter α
  | 0 => ([], it)
  | fuel + 1 =>
    match record_items_next it with
    | (none, it2) => ([], it2)
    | (some p, it2) =>
      let r := itemsRun it2 fuel
      (p :: r.1, r.2)

/-! ## Size-class allocator (make_record, record_dealloc)

Pool constants from recordobj.c; ApgRecord_MAXSIZE uses the LP64
layout (Py_ssize_t of 8 bytes, sizeof(ApgRecordObject) = 48,
sizeof(PyObject *) = 8). -/

def ApgRecord_MAXSAVESIZE : Nat := 20

def ApgRecord_MAXFREELIST : Nat := 2000

def ApgRecord_MAXSIZE : Nat := ((2 ^ 63 - 1) - 48 - 8) / 8

/-- record_freelist_state: one free list and its retained count per
pooled size class.  Blocks are identified by abstract ids. -/
structure FreelistState where
  freelist : Fin 20 → List Nat
  numfree : Fin 20 → Nat

/-- Where a new record's storage came from. -/
inductive AllocSrc where
  | pooledBlock (b : Nat)
  | freshAlloc
deriving DecidableEq, Repr

/-- Error returns of make_record: PyErr_BadInternalCall for a negative
size or a non-Descriptor argument, PyErr_NoMemory for an overflowing
size. -/
inductive MakeRecordErr where
  | badInternalCall
  | noMemory
deriving DecidableEq, Repr

/-- The record object make_record hands back: `ob_item` slots all
unset (NULL), the descriptor reference taken, and the cached hash set
to the unset marker -1. -/
structure MadeRecord (δ : Type u) where
  ob_item : List (Option Nat)
  desc : δ
  self_hash : Int
  src : AllocSrc

/-- The free-list pop inside make_record (§4.4 acquire): take the
head of the thread's free list for size class `s` when non-empty,
decrementing `numfree[s]`; `none` when the list is empty. -/
def poolAcquire (st : FreelistState) (s : Fin 20) : Option (Nat × FreelistState) :=
  match st.freelist s with
  | [] => none
  | b :: rest =>
    some (b, ⟨Function.update st.freelist s rest,
              Function.update st.numfree s (st.numfree s - 1)⟩)

/-- make_record: validate the size and the descriptor, then obtain
storage — for the base Record type and a size below
ApgRecord_MAXSAVESIZE, pop the head of the thread's free list for that
size when non-empty; otherwise (and for subclasses) check the size
against ApgRecord_MAXSIZE before allocating fresh storage.  `desc` is
`none` when the argument is NULL or not a genuine Descriptor.  The GC
bookkeeping of the C code (tracking, the subclass tracked assertion)
is runtime interop and is not modelled. -/
def make_record (isBaseType : Bool) (desc : Option δ) (size : Int) (st : FreelistState) :
    Except MakeRecordErr (MadeRecord δ) × FreelistState :=
  match desc with
  | none => (.error .badInternalCall, st)
  | some d =>
    if h0 : size < 0 then (.error .badInternalCall, st)
    else if isBaseType then
      if h1 : size < (ApgRecord_MAXSAVESIZE : Int) then
        match poolAcquire st ⟨size.toNat, by simp only [ApgRecord_MAXSAVESIZE] at h1; omega⟩ with
        | some (b, st2) =>
          (.ok ⟨List.replicate size.toNat none, d, -1, .pooledBlock b⟩, st2)
        | none =>
          if size.toNat > ApgRecord_MAXSIZE then (.error .noMemory, st)
          else (.ok ⟨List.replicate size.toNat none, d, -1, .freshAlloc⟩, st)
      else
        if size.toNat > ApgRecord_MAXSIZE then (.error .noMemory, st)
        else (.ok ⟨List.replicate size.toNat none, d, -1, .freshAlloc⟩, st)
    else
      if size.toNat > ApgRecord_MAXSIZE then (.error .noMemory, st)
      else (.ok ⟨List.replicate size.toNat none, d, -1, .freshAlloc⟩, st)

/-- record_dealloc's pooling decision: a base-type record of a pooled
size is pushed onto its size's free list when that list has not
reached ApgRecord_MAXFREELIST, incrementing the count; otherwise the
storage is freed immediately (state unchanged).  Returns whether the
block was pooled. -/
def record_dealloc (isBaseType : Bool) (len : Nat) (b : Nat) (st : FreelistState) :
    Bool × FreelistState :=
  if h : len < ApgRecord_MAXSAVESIZE ∧ isBaseType = true then
    if st.numfree ⟨len, by simp only [ApgRecord_MAXSAVESIZE] at h; omega⟩ < ApgRecord_MAXFREELIST then
      (true,
       ⟨Function.update st.freelist ⟨len, by simp only [ApgRecord_MAXSAVESIZE] at h; omega⟩
          (b :: st.freelist ⟨len, by simp only [ApgRecord_MAXSAVESIZE] at h; omega⟩),
        Function.update st.numfree ⟨len, by simp only [ApgRecord_MAXSAVESIZE] at h; omega⟩
          (st.numfree ⟨len, by simp only [ApgRecord_MAXSAVESIZE] at h; omega⟩ + 1)⟩)
    else (false, st)
  else (false, st)

/-- The pool invariant of the claim: each retained count matches its
free list's length and never exceeds ApgRecord_MAXFREELIST. -/
def PoolInv (st : FreelistState) : Prop :=
  ∀ s : Fin 20, st.numfree s = (st.freelist s).length ∧ st.numfree s ≤ ApgRecord_MAXFREELIST

/-! ## Concrete sample objects used to instantiate the theorems -/

/-- A two-column descriptor over `Nat`-encoded objects: name 100 maps
to slot 0, name 101 to slot 1. -/
def sampleDesc : Descriptor Nat :=
  ⟨fun n => if n = 100 then some (.idx 0) else if n = 101 then some (.idx 1) else none,
   [100, 101]⟩

/-- A two-slot record over `sampleDesc` with values 7 and 8. -/
def sampleRec : RecordObj Nat := ⟨sampleDesc, [7, 8]⟩

/-- An empty freelist pool state. -/
def emptyPool : FreelistState := ⟨fun _ => [], fun _ => 0⟩

/-- A pool state whose size-2 free list holds the single block 42. -/
def onePool : FreelistState :=
  ⟨Function.update (fun _ => []) (2 : Fin 20) [42],
   Function.update (fun _ => 0) (2 : Fin 20) 1⟩

/-- Element equality on `Nat`-encoded objects, always succeeding. -/
def natBeq (x y : Nat) : Option Bool := some (decide (x = y))

/-- Rich comparison on `Nat`-encoded objects, always succeeding. -/
def natRich (x y : Nat) (op : PyOp) : Option Bool := some (op.onLengths x y)

/-! ## Theorems -/

theorem hashFold_eq_tupleHashFold (acc : Nat) (hs : List (Option Nat)) :
    hashFold acc hs = tupleHashFold acc hs := by
  induction hs generalizing acc with
  | nil => rfl
  | cons h t ih =>
    cases h with
    | none => rfl
    | some lane => simp [hashFold, tupleHashFold, hashStep, ih]

theorem hashFold_of_mem_none (acc : Nat) (hs : List (Option Nat)) (h : none ∈ hs) :
    hashFold acc hs = none := by
  induction hs generalizing acc with
  | nil => cases h
  | cons x t ih =>
    cases x with
    | none => rfl
    | some lane =>
      simp only [List.mem_cons] at h
      rcases h with h | h
      · cases h
      · exact ih _ h

/-- C1: a Record hashes exactly like a plain ordered sequence with the
same elements — the hash depends only on the element-hash list, and
`record_hash` agrees with the tuple formula on every such list; the
empty Record hashes to the canonical empty-tuple hash 5740354900026072187;
and the hash fails (returns the error marker `none`) whenever hashing
any element fails. -/
theorem record_hash_eq_tuple_hash (hs : List (Option Nat)) :
    record_hash hs = tuple_hash hs ∧
    record_hash [] = some 5740354900026072187 ∧
    (none ∈ hs → record_hash hs = none) := by
  refine ⟨?_, ?_, ?_⟩
  · unfold record_hash tuple_hash hashFinal
    rw [hashFold_eq_tupleHashFold]
  · decide
  · intro h
    unfold record_hash
    rw [hashFold_of_mem_none _ _ h]

theorem record_hash_eq_tuple_hash_witness :
    record_hash [some 1, none] = tuple_hash [some 1, none] ∧
    record_hash [] = some 5740354900026072187 ∧
    record_hash [some 1, none] = none := by
  obtain ⟨a, b, c⟩ := record_hash_eq_tuple_hash [some 1, none]
  exact ⟨a, b, c (by decide)⟩

/-- C3: for an index `i` in `[0, N)`, `r[i]` returns the value in slot
`i` and `r[i - N]` returns the same value (negative-index
equivalence); any index that, after a negative index has the size
added, still resolves outside `[0, N)` fails with IndexError. -/
theorem record_subscript_int_spec (slots : List α) (i : Int)
    (h0 : 0 ≤ i) (h1 : i < (slots.length : Int)) :
    record_subscript_int slots i = .ok (slots.get ⟨i.toNat, by omega⟩) ∧
    record_subscript_int slots (i - (slots.length : Int))
      = .ok (slots.get ⟨i.toNat, by omega⟩) ∧
    (∀ j : Int, ((if j < 0 then j + (slots.length : Int) else j) < 0 ∨
        (slots.length : Int) ≤ (if j < 0 then j + (slots.length : Int) else j)) →
      record_subscript_int slots j = .error .indexError) := by
  refine ⟨?_, ?_, ?_⟩
  · unfold record_subscript_int record_item
    rw [if_neg (by omega)]
    rw [dif_pos ⟨h0, h1⟩]
  · unfold record_subscript_int record_item
    have hlen : 0 < (slots.length : Int) := by omega
    rw [if_pos (by omega)]
    have harg : i - (slots.length : Int) + (slots.length : Int) = i := by ring
    rw [harg, dif_pos ⟨h0, h1⟩]
  · intro j hj
    unfold record_subscript_int record_item
    rcases lt_or_ge j 0 with hneg | hpos
    · rw [if_pos hneg] at hj ⊢
      rw [dif_neg (by omega)]
    · rw [if_neg (by omega)] at hj ⊢
      rw [dif_neg (by omega)]

theorem record_subscript_int_spec_witness :
    record_subscript_int ([10, 20, 30] : List Nat) 1 = .ok 20 ∧
    record_subscript_int ([10, 20, 30] : List Nat)
        (1 - (([10, 20, 30] : List Nat).length : Int)) = .ok 20 ∧
    record_subscript_int ([10, 20, 30] : List Nat) 5 = .error .indexError := by
  obtain ⟨a, b, c⟩ :=
    record_subscript_int_spec ([10, 20, 30] : List Nat) 1 (by decide) (by decide)
  exact ⟨a, b, c 5 (by decide)⟩

/-- C4: a name absent from the descriptor mapping makes
record_item_by_name fail as APG_ITEM_NOT_FOUND carrying that name; a
name the mapping resolves to a valid index yields exactly what
positional access at that index yields. -/
theorem record_item_by_name_spec (r : RecordObj α) (n : α) :
    (r.desc.mapping n = none → record_item_by_name r n = .notFound n) ∧
    (∀ (i : Int) (v : α), r.desc.mapping n = some (.idx i) → 0 ≤ i →
       record_item r.slots i = .ok v → record_item_by_name r n = .found v) := by
  constructor
  · intro h
    unfold record_item_by_name
    rw [h]
  · intro i v hmap hi hitem
    unfold record_item_by_name
    rw [hmap]
    simp only [if_neg (by omega : ¬ i < 0), hitem]

theorem record_item_by_name_spec_witness :
    record_item_by_name sampleRec 999 = .notFound 999 ∧
    record_item_by_name sampleRec 101 = .found 8 := by
  obtain ⟨a, b⟩ := record_item_by_name_spec sampleRec 999
  obtain ⟨a2, b2⟩ := record_item_by_name_spec sampleRec 101
  exact ⟨a rfl, b2 1 8 rfl (by decide) rfl⟩

/-- C5: Record.get with a name absent from the descriptor returns the
supplied default without failing — the very name lookup that raises
KeyError under subscript access is swallowed — and with a present,
found name it returns the same value as subscript (get_by_name)
access. -/
theorem record_get_default_spec (r : RecordObj α) (defNone n D : α) :
    (r.desc.mapping n = none →
       record_get r defNone [n, D] = .value D ∧
       record_subscript_name r n = .error (.keyError n)) ∧
    (∀ v, record_item_by_name r n = .found v →
       record_get r defNone [n, D] = .value v ∧
       record_subscript_name r n = .ok v) := by
  constructor
  · intro h
    have hnf : record_item_by_name r n = .notFound n := by
      unfold record_item_by_name
      rw [h]
    constructor
    · simp only [record_get, hnf]
    · unfold record_subscript_name
      rw [hnf]
  · intro v h
    constructor
    · simp only [record_get, h]
    · unfold record_subscript_name
      rw [h]

theorem record_get_default_spec_witness :
    record_get sampleRec 0 [999, 55] = .value 55 ∧
    record_subscript_name sampleRec 999 = .error (.keyError 999) ∧
    record_get sampleRec 0 [101, 55] = .value 8 ∧
    record_subscript_name sampleRec 101 = .ok 8 := by
  obtain ⟨a, _⟩ := record_get_default_spec sampleRec 0 999 55
  obtain ⟨_, b⟩ := record_get_default_spec sampleRec 0 101 55
  obtain ⟨a1, a2⟩ := a rfl
  obtain ⟨b1, b2⟩ := b 8 (by decide)
  exact ⟨a1, a2, b1, b2⟩

/-- C10: with an argument count other than 1 or 2, record_get formats
the TypeError but the error branch is not an early exit — the code
falls through and performs the name lookup with the local `key`
variable still uninitialized, contradicting the claimed immediate
return. -/
theorem record_get_arity_fallthrough :
    record_get sampleRec 0 ([] : List Nat) = .uninitKeyLookup ∧
    record_get sampleRec 0 ([100, 0, 0] : List Nat) = .uninitKeyLookup :=
  ⟨rfl, rfl⟩

theorem iterRun_succ (it : RecordIter α) (fuel : Nat) :
    iterRun it (fuel + 1) =
      match record_iter_next it with
      | (none, it2) => ([], it2)
      | (some v, it2) => (v :: (iterRun it2 fuel).1, (iterRun it2 fuel).2) := rfl

theorem iterRun_go (vs : List α) :
    ∀ k i, i ≤ vs.length → vs.length - i = k →
      iterRun ⟨i, some vs⟩ (k + 1) = (vs.drop i, ⟨vs.length, none⟩) := by
  intro k
  induction k with
  | zero =>
    intro i hi hn
    have hiv : i = vs.length := by omega
    subst hiv
    simp [iterRun_succ, record_iter_next, iterRun]
  | succ k ih =>
    intro i hi hn
    have hlt : i < vs.length := by omega
    rw [iterRun_succ]
    simp only [record_iter_next, dif_pos hlt]
    rw [ih (i + 1) (by omega) (by omega), List.drop_eq_getElem_cons hlt]
    simp

/-- C9: driving the value iterator of a record of size N yields
exactly the N slot values in order — the j-th yielded value being what
positional access at j returns — after which the Record reference is
cleared permanently and every later next call signals exhaustion on
the unchanged state; the length estimate is always N minus the cursor,
and 0 once the reference is cleared. -/
theorem record_iter_spec (vs : List α) :
    iterRun ⟨0, some vs⟩ (vs.length + 1) = (vs, ⟨vs.length, none⟩) ∧
    (∀ (j : Nat) (hj : j < vs.length), record_item vs (j : Int) = .ok (vs.get ⟨j, hj⟩)) ∧
    (∀ i : Nat, record_iter_next (⟨i, none⟩ : RecordIter α) = (none, ⟨i, none⟩)) ∧
    (∀ i : Nat, record_iter_len ⟨i, some vs⟩ = vs.length - i) ∧
    (∀ i : Nat, record_iter_len (⟨i, none⟩ : RecordIter α) = 0) := by
  refine ⟨?_, ?_, fun i => rfl, fun i => rfl, fun i => rfl⟩
  · simpa using iterRun_go vs vs.length 0 (by omega) (by omega)
  · intro j hj
    unfold record_item
    rw [dif_pos (by constructor <;> omega)]
    rfl

theorem record_iter_spec_witness :
    iterRun ⟨0, some [5, 6]⟩ ([5, 6].length + 1) = ([5, 6], ⟨2, none⟩) ∧
    record_item ([5, 6] : List Nat) (1 : Int) = .ok 6 ∧
    record_iter_next (⟨2, none⟩ : RecordIter Nat) = (none, ⟨2, none⟩) ∧
    record_iter_len (⟨1, some [5, 6]⟩ : RecordIter Nat) = 1 ∧
    record_iter_len (⟨2, none⟩ : RecordIter Nat) = 0 := by
  obtain ⟨a, b, c, d, e⟩ := record_iter_spec [5, 6]
  exact ⟨a, b 1 (by decide), c 2, d 1, e 2⟩

theorem itemsRun_succ (it : RecordItemsIter α) (fuel : Nat) :
    itemsRun it (fuel + 1) =
      match record_items_next it with
      | (none, it2) => ([], it2)
      | (some p, it2) => (p :: (itemsRun it2 fuel).1, (itemsRun it2 fuel).2) := rfl

theorem itemsRun_go (ks vs : List α) :
    ∀ i, i ≤ vs.length →
      itemsRun ⟨i, some ks, some vs⟩ (ks.length + 1)
        = (ks.zip (vs.drop i), ⟨i + min ks.length (vs.length - i), none, none⟩) := by
  induction ks with
  | nil =>
    intro i hi
    simp [itemsRun_succ, record_items_next, itemsRun]
  | cons k kt ih =>
    intro i hi
    by_cases hlt : i < vs.length
    · rw [List.length_cons, itemsRun_succ]
      simp only [record_items_next, dif_pos hlt]
      rw [ih (i + 1) (by omega)]
      simp only [Prod.mk.injEq]
      constructor
      · rw [List.drop_eq_getElem_cons hlt, List.zip_cons_cons]
        simp only [List.get_eq_getElem]
      · simp only [RecordItemsIter.mk.injEq, and_true]
        omega
    · have hiv : i = vs.length := by omega
      rw [List.length_cons, itemsRun_succ]
      simp only [record_items_next, dif_neg hlt]
      rw [List.drop_eq_nil_of_le (by omega)]
      simp only [List.zip_nil_right, Prod.mk.injEq, RecordItemsIter.mk.injEq, and_true,
        true_and]
      omega

/-- C6: driving the items iterator of a record whose descriptor has K
keys and whose slot array has N values yields exactly the
min(K, N)-element positional zip of keys with slots — pairing key j
with slot j — after which both the key iterator and the Record
reference are cleared and every later next call signals ordinary
exhaustion on the unchanged state, whether K < N or K > N. -/
theorem record_items_spec (ks vs : List α) (dk dv : α) :
    itemsRun ⟨0, some ks, some vs⟩ (ks.length + 1)
      = (ks.zip vs, ⟨min ks.length vs.length, none, none⟩) ∧
    (ks.zip vs).length = min ks.length vs.length ∧
    (∀ j, j < min ks.length vs.length →
       (ks.zip vs).getD j (dk, dv) = (ks.getD j dk, vs.getD j dv)) ∧
    (∀ i : Nat, record_items_next (⟨i, none, none⟩ : RecordItemsIter α)
       = (none, ⟨i, none, none⟩)) := by
  refine ⟨?_, ?_, ?_, fun i => rfl⟩
  · simpa using itemsRun_go ks vs 0 (by omega)

  · simp [List.length_zip]
  · intro j hj
    have h1 : j < ks.length := by omega
    have h2 : j < vs.length := by omega
    have hz : j < (ks.zip vs).length := by rw [List.length_zip]; omega
    rw [List.getD_eq_getElem _ _ hz, List.getD_eq_getElem _ _ h1,
        List.getD_eq_getElem _ _ h2, List.getElem_zip]

theorem record_items_spec_witness :
    itemsRun ⟨0, some [100, 101, 102], some [7, 8]⟩ 4
      = ([(100, 7), (101, 8)], ⟨2, none, none⟩) ∧
    ([(100, 7), (101, 8)] : List (Nat × Nat)).length = 2 ∧
    ([(100, 7), (101, 8)] : List (Nat × Nat)).getD 1 (0, 0) = (101, 8) ∧
    record_items_next (⟨2, none, none⟩ : RecordItemsIter Nat)
      = (none, ⟨2, none, none⟩) := by
  obtain ⟨a, b, c, d⟩ := record_items_spec [100, 101, 102] [7, 8] 0 0
  exact ⟨a, b, c 1 (by decide), d 2⟩

theorem scanFirstDiff_all_eq (beq : α → α → Option Bool) (d : α) :
    ∀ xs ys : List α,
      (∀ i, i < min xs.length ys.length → beq (xs.getD i d) (ys.getD i d) = some true) →
      scanFirstDiff beq xs ys = some none := by
  intro xs
  induction xs with
  | nil => intro ys h; cases ys <;> rfl
  | cons x xt ih =>
    intro ys h
    cases ys with
    | nil => rfl
    | cons y yt =>
      have h0 := h 0 (by simp)
      simp only [List.getD_cons_zero] at h0
      simp only [scanFirstDiff, h0]
      exact ih yt fun i hi => by
        have hstep := h (i + 1) (by simp only [List.length_cons] at hi ⊢; omega)
        simpa using hstep

theorem scanFirstDiff_first (beq : α → α → Option Bool) (d : α) :
    ∀ (j : Nat) (xs ys : List α), j < xs.length → j < ys.length →
      (∀ i, i < j → beq (xs.getD i d) (ys.getD i d) = some true) →
      beq (xs.getD j d) (ys.getD j d) = some false →
      scanFirstDiff beq xs ys = some (some (xs.getD j d, ys.getD j d)) := by
  intro j
  induction j with
  | zero =>
    intro xs ys h1 h2 hpre hj
    cases xs with
    | nil => simp at h1
    | cons x xt =>
      cases ys with
      | nil => simp at h2
      | cons y yt =>
        simp only [List.getD_cons_zero] at hj ⊢
        simp only [scanFirstDiff, hj]
  | succ j ih =>
    intro xs ys h1 h2 hpre hj
    cases xs with
    | nil => simp at h1
    | cons x xt =>
      cases ys with
      | nil => simp at h2
      | cons y yt =>
        have h0 := hpre 0 (by omega)
        simp only [List.getD_cons_zero] at h0
        simp only [List.getD_cons_succ] at hj ⊢
        simp only [scanFirstDiff, h0]
        exact ih xt yt (by simp only [List.length_cons] at h1; omega)
          (by simp only [List.length_cons] at h2; omega)
          (fun i hi => by have hstep := hpre (i + 1) (by omega); simpa using hstep) hj

/-- C2: comparing two Records or a Record with a plain tuple — for
equality and inequality with differing lengths the result is the
length-based boolean, with no element comparison performed (the result
does not depend on the element comparison functions at all); when no
index in the shared prefix differs, the result is the comparison of
the lengths under the operator; a first differing index determines the
ordering result by comparing just that pair with the operator (and
decides equality and inequality outright); and a comparison in which
either side is neither a Record nor a tuple is NotImplemented, not an
error. -/
theorem record_richcompare_spec (beq beq2 : α → α → Option Bool)
    (rich rich2 : α → α → PyOp → Option Bool) (d : α)
    (v w : Operand α) (xs ys : List α) (op : PyOp)
    (hv : v.elems = some xs) (hw : w.elems = some ys) :
    ((op = .eq ∨ op = .ne) → xs.length ≠ ys.length →
       record_richcompare beq rich v w op
           = some (.res (op.onLengths xs.length ys.length)) ∧
       record_richcompare beq rich v w op = record_richcompare beq2 rich2 v w op) ∧
    ((∀ i, i < min xs.length ys.length → beq (xs.getD i d) (ys.getD i d) = some true) →
       record_richcompare beq rich v w op
         = some (.res (op.onLengths xs.length ys.length))) ∧
    (∀ j, j < xs.length → j < ys.length →
       (∀ i, i < j → beq (xs.getD i d) (ys.getD i d) = some true) →
       beq (xs.getD j d) (ys.getD j d) = some false →
       ((op = .lt ∨ op = .le ∨ op = .gt ∨ op = .ge) →
          record_richcompare beq rich v w op
            = (rich (xs.getD j d) (ys.getD j d) op).map .res) ∧
       (op = .eq → record_richcompare beq rich v w op = some (.res false)) ∧
       (op = .ne → record_richcompare beq rich v w op = some (.res true))) ∧
    (∀ u : Operand α,
       record_richcompare beq rich u .otherOp op = some .notImplemented ∧
       record_richcompare beq rich .otherOp u op = some .notImplemented) := by
  refine ⟨?_, ?_, ?_, ?_⟩
  · intro hop hlen
    have key : ∀ (b : α → α → Option Bool) (r : α → α → PyOp → Option Bool),
        record_richcompare b r v w op
          = some (.res (op.onLengths xs.length ys.length)) := by
      intro b r
      rcases hop with h | h <;> subst h <;>
        simp [record_richcompare, hv, hw, PyOp.onLengths, hlen]
    exact ⟨key beq rich, (key beq rich).trans (key beq2 rich2).symm⟩
  · intro hall
    have hscan := scanFirstDiff_all_eq beq d xs ys hall
    by_cases h1 : op = .eq ∧ xs.length ≠ ys.length
    · obtain ⟨h1a, h1b⟩ := h1
      subst h1a
      simp [record_richcompare, hv, hw, PyOp.onLengths, h1b]
    · by_cases h2 : op = .ne ∧ xs.length ≠ ys.length
      · obtain ⟨h2a, h2b⟩ := h2
        subst h2a
        simp [record_richcompare, hv, hw, PyOp.onLengths, h2b]
      · simp only [record_richcompare, hv, hw]
        rw [if_neg h1, if_neg h2]
        simp [hscan]
  · intro j hj1 hj2 hpre hdiff
    have hscan := scanFirstDiff_first beq d j xs ys hj1 hj2 hpre hdiff
    refine ⟨?_, ?_, ?_⟩
    · intro hop
      have hne1 : ¬(op = PyOp.eq ∧ xs.length ≠ ys.length) := by
        rcases hop with h | h | h | h <;> subst h <;> simp
      have hne2 : ¬(op = PyOp.ne ∧ xs.length ≠ ys.length) := by
        rcases hop with h | h | h | h <;> subst h <;> simp
      have hne3 : ¬(op = PyOp.eq) := by
        rcases hop with h | h | h | h <;> subst h <;> simp
      have hne4 : ¬(op = PyOp.ne) := by
        rcases hop with h | h | h | h <;> subst h <;> simp
      simp only [record_richcompare, hv, hw]
      rw [if_neg hne1, if_neg hne2]
      simp only [hscan]
      rw [if_neg hne3, if_neg hne4]
    · intro heq
      subst heq
      by_cases hlen : xs.length = ys.length
      · simp [record_richcompare, hv, hw, hscan, hlen]
      · simp [record_richcompare, hv, hw, hlen]
    · intro hop
      subst hop
      by_cases hlen : xs.length = ys.length
      · simp [record_richcompare, hv, hw, hscan, hlen]
      · simp [record_richcompare, hv, hw, hlen]
  · intro u
    constructor
    · rcases hu : u.elems with _ | exs <;>
        simp [record_richcompare, hu,
          show Operand.elems (.otherOp : Operand α) = none from rfl]
    · cases u <;> simp [record_richcompare, Operand.elems]

theorem record_richcompare_spec_witness :
    record_richcompare natBeq natRich (.recordOp [1, 2, 3]) (.tupleOp [1, 2]) .eq
      = some (.res false) ∧
    record_richcompare natBeq natRich (.recordOp [1, 2, 3]) (.tupleOp [1, 2]) .gt
      = some (.res true) ∧
    record_richcompare natBeq natRich (.recordOp [2, 9]) (.tupleOp [2, 5]) .lt
      = some (.res false) ∧
    record_richcompare natBeq natRich (.recordOp [1, 2, 3])
        (.otherOp : Operand Nat) .eq = some .notImplemented := by
  obtain ⟨c1, _, _, c4⟩ :=
    record_richcompare_spec natBeq natBeq natRich natRich 0
      (.recordOp [1, 2, 3]) (.tupleOp [1, 2]) [1, 2, 3] [1, 2] .eq rfl rfl
  obtain ⟨_, c2, _, _⟩ :=
    record_richcompare_spec natBeq natBeq natRich natRich 0
      (.recordOp [1, 2, 3]) (.tupleOp [1, 2]) [1, 2, 3] [1, 2] .gt rfl rfl
  obtain ⟨_, _, c3, _⟩ :=
    record_richcompare_spec natBeq natBeq natRich natRich 0
      (.recordOp [2, 9]) (.tupleOp [2, 5]) [2, 9] [2, 5] .lt rfl rfl
  refine ⟨(c1 (Or.inl rfl) (by decide)).1, c2 (by decide), ?_, (c4 _).1⟩
  exact (c3 1 (by decide) (by decide) (by decide) (by decide)).1
    (Or.inl rfl)

theorem maxsize_large : 20 ≤ ApgRecord_MAXSIZE := by
  norm_num [ApgRecord_MAXSIZE]

theorem poolInv_pop (st : FreelistState) (hInv : PoolInv st) (s : Fin 20) (b : Nat)
    (rest : List Nat) (hfl : st.freelist s = b :: rest) :
    PoolInv ⟨Function.update st.freelist s rest,
             Function.update st.numfree s (st.numfree s - 1)⟩ := by
  intro t
  obtain ⟨h1, h2⟩ := hInv t
  by_cases ht : t = s
  · subst ht
    rw [hfl] at h1
    simp only [Function.update_same, List.length_cons] at h1 ⊢
    omega
  · simp only [Function.update_noteq ht]
    exact ⟨h1, h2⟩

theorem poolInv_push (st : FreelistState) (hInv : PoolInv st) (s : Fin 20) (b : Nat)
    (hlt : st.numfree s < ApgRecord_MAXFREELIST) :
    PoolInv ⟨Function.update st.freelist s (b :: st.freelist s),
             Function.update st.numfree s (st.numfree s + 1)⟩ := by
  intro t
  obtain ⟨h1, h2⟩ := hInv t
  by_cases ht : t = s
  · subst ht
    simp only [Function.update_same, List.length_cons, ApgRecord_MAXFREELIST] at *
    omega
  · simp only [Function.update_noteq ht]
    exact ⟨h1, h2⟩

theorem poolAcquire_some (st : FreelistState) (s : Fin 20) (b : Nat) (st2 : FreelistState)
    (h : poolAcquire st s = some (b, st2)) :
    st.freelist s = b :: (st.freelist s).tail ∧
    st2 = ⟨Function.update st.freelist s (st.freelist s).tail,
           Function.update st.numfree s (st.numfree s - 1)⟩ := by
  unfold poolAcquire at h
  rcases hfl : st.freelist s with _ | ⟨b2, rest⟩
  · rw [hfl] at h
    cases h
  · rw [hfl] at h
    simp only [Option.some.injEq, Prod.mk.injEq] at h
    obtain ⟨hb, hst⟩ := h
    subst hb
    subst hst
    simp [hfl]

theorem make_record_poolInv (st : FreelistState) (hInv : PoolInv st)
    (isB : Bool) (dsc : Option δ) (size : Int) :
    PoolInv (make_record isB dsc size st).2 := by
  unfold make_record
  cases dsc with
  | none => exact hInv
  | some d =>
    by_cases h0 : size < 0
    · simp only [dif_pos h0]
      exact hInv
    · simp only [dif_neg h0]
      cases isB with
      | false =>
        by_cases hm : size.toNat > ApgRecord_MAXSIZE
        · simp only [Bool.false_eq_true, if_false, if_pos hm]
          exact hInv
        · simp only [Bool.false_eq_true, if_false, if_neg hm]
          exact hInv
      | true =>
        simp only [if_pos rfl]
        by_cases h1 : size < (ApgRecord_MAXSAVESIZE : Int)
        · simp only [dif_pos h1]
          rcases hpa : poolAcquire st
              ⟨size.toNat, by simp only [ApgRecord_MAXSAVESIZE] at h1; omega⟩
            with _ | ⟨b, st2⟩
          · by_cases hm : size.toNat > ApgRecord_MAXSIZE
            · simp only [if_pos hm]
              exact hInv
            · simp only [if_neg hm]
              exact hInv
          · obtain ⟨hfl, hst2⟩ := poolAcquire_some st _ b st2 hpa
            subst hst2
            exact poolInv_pop st hInv _ b _ hfl
        · simp only [dif_neg h1]
          by_cases hm : size.toNat > ApgRecord_MAXSIZE
          · simp only [if_pos hm]
            exact hInv
          · simp only [if_neg hm]
            exact hInv

theorem record_dealloc_poolInv (st : FreelistState) (hInv : PoolInv st)
    (isB : Bool) (len b : Nat) :
    PoolInv (record_dealloc isB len b st).2 := by
  unfold record_dealloc
  split
  · rename_i h
    split
    · rename_i hlt
      exact poolInv_push st hInv _ b hlt
    · exact hInv
  · exact hInv

theorem make_record_pop (st : FreelistState) (d : Unit) (s : Fin 20) (b : Nat)
    (rest : List Nat) (hfl : st.freelist s = b :: rest) :
    make_record true (some d) ((s : Nat) : Int) st
      = (.ok ⟨List.replicate (s : Nat) none, d, -1, .pooledBlock b⟩,
         ⟨Function.update st.freelist s rest,
          Function.update st.numfree s (st.numfree s - 1)⟩) := by
  have hpa : poolAcquire st s
      = some (b, ⟨Function.update st.freelist s rest,
                  Function.update st.numfree s (st.numfree s - 1)⟩) := by
    unfold poolAcquire
    rw [hfl]
  have hneg : ¬ ((s : Nat) : Int) < 0 := by omega
  have hsmall : ((s : Nat) : Int) < (ApgRecord_MAXSAVESIZE : Int) := by
    have h := s.isLt
    simp only [ApgRecord_MAXSAVESIZE]
    omega
  simp only [make_record, dif_neg hneg, if_pos rfl, dif_pos hsmall,
    Int.toNat_natCast, Fin.eta, hpa, if_true]

theorem make_record_fresh (st : FreelistState) (d : Unit) (s : Fin 20)
    (hfl : st.freelist s = []) :
    make_record true (some d) ((s : Nat) : Int) st
      = (.ok ⟨List.replicate (s : Nat) none, d, -1, .freshAlloc⟩, st) := by
  have hpa : poolAcquire st s = none := by
    unfold poolAcquire
    rw [hfl]
  have hneg : ¬ ((s : Nat) : Int) < 0 := by omega
  have hsmall : ((s : Nat) : Int) < (ApgRecord_MAXSAVESIZE : Int) := by
    have h := s.isLt
    simp only [ApgRecord_MAXSAVESIZE]
    omega
  have hok : ¬ ((s : Nat) > ApgRecord_MAXSIZE) := by
    have h1 := s.isLt
    have h2 := maxsize_large
    omega
  simp only [make_record, dif_neg hneg, if_pos rfl, dif_pos hsmall,
    Int.toNat_natCast, Fin.eta, hpa, if_neg hok, if_true]

theorem record_dealloc_push (st : FreelistState) (s : Fin 20) (b : Nat)
    (hlt : st.numfree s < ApgRecord_MAXFREELIST) :
    record_dealloc true ((s : Nat)) b st
      = (true, ⟨Function.update st.freelist s (b :: st.freelist s),
                Function.update st.numfree s (st.numfree s + 1)⟩) := by
  unfold record_dealloc
  rw [dif_pos ⟨s.isLt, rfl⟩, if_pos hlt]

theorem record_dealloc_full (st : FreelistState) (s : Fin 20) (b : Nat)
    (hge : ApgRecord_MAXFREELIST ≤ st.numfree s) :
    record_dealloc true ((s : Nat)) b st = (false, st) := by
  unfold record_dealloc
  rw [dif_pos ⟨s.isLt, rfl⟩, if_neg (Nat.not_lt.mpr hge)]

theorem record_dealloc_large (st : FreelistState) (len b : Nat)
    (hlen : ApgRecord_MAXSAVESIZE ≤ len) :
    record_dealloc true len b st = (false, st) := by
  unfold record_dealloc
  rw [dif_neg (by rintro ⟨h, _⟩; omega)]

theorem record_dealloc_subclass (st : FreelistState) (len b : Nat) :
    record_dealloc false len b st = (false, st) := by
  unfold record_dealloc
  rw [dif_neg (by rintro ⟨_, h⟩; cases h)]

/-- C7: records are pooled only for sizes strictly below
ApgRecord_MAXSAVESIZE; the pool invariant — numfree equal to the free
list length and bounded by ApgRecord_MAXFREELIST — is preserved by
every acquisition and release; acquiring from a non-empty free list
pops its head and decrements the count, an empty list means fresh
allocation with the pool untouched; releasing a base-type record of
pooled size pushes it and increments the count only below the bound,
while a full class, an unpooled size, or a subclass instance frees
immediately with the pool unchanged. -/
theorem pool_spec (st : FreelistState) (hInv : PoolInv st) :
    (∀ (isB : Bool) (dsc : Option Unit) (size : Int),
       PoolInv (make_record isB dsc size st).2) ∧
    (∀ (isB : Bool) (len b : Nat), PoolInv (record_dealloc isB len b st).2) ∧
    (∀ (d : Unit) (s : Fin 20) (b : Nat) (rest : List Nat), st.freelist s = b :: rest →
       make_record true (some d) ((s : Nat) : Int) st
         = (.ok ⟨List.replicate (s : Nat) none, d, -1, .pooledBlock b⟩,
            ⟨Function.update st.freelist s rest,
             Function.update st.numfree s (st.numfree s - 1)⟩)) ∧
    (∀ (d : Unit) (s : Fin 20), st.freelist s = [] →
       make_record true (some d) ((s : Nat) : Int) st
         = (.ok ⟨List.replicate (s : Nat) none, d, -1, .freshAlloc⟩, st)) ∧
    (∀ (s : Fin 20) (b : Nat), st.numfree s < ApgRecord_MAXFREELIST →
       record_dealloc true ((s : Nat)) b st
         = (true, ⟨Function.update st.freelist s (b :: st.freelist s),
                   Function.update st.numfree s (st.numfree s + 1)⟩)) ∧
    (∀ (s : Fin 20) (b : Nat), ApgRecord_MAXFREELIST ≤ st.numfree s →
       record_dealloc true ((s : Nat)) b st = (false, st)) ∧
    (∀ (len b : Nat), ApgRecord_MAXSAVESIZE ≤ len →
       record_dealloc true len b st = (false, st)) ∧
    (∀ (len b : Nat), record_dealloc false len b st = (false, st)) :=
  ⟨fun isB dsc size => make_record_poolInv st hInv isB dsc size,
   fun isB len b => record_dealloc_poolInv st hInv isB len b,
   fun d s b rest hfl => make_record_pop st d s b rest hfl,
   fun d s hfl => make_record_fresh st d s hfl,
   fun s b hlt => record_dealloc_push st s b hlt,
   fun s b hge => record_dealloc_full st s b hge,
   fun len b hlen => record_dealloc_large st len b hlen,
   fun len b => record_dealloc_subclass st len b⟩

theorem pool_spec_witness :
    PoolInv (record_dealloc true 3 7 onePool).2 ∧
    make_record true (some ()) (((2 : Fin 20) : Nat) : Int) onePool
      = (.ok ⟨List.replicate ((2 : Fin 20) : Nat) none, (), -1, .pooledBlock 42⟩,
         ⟨Function.update onePool.freelist 2 [],
          Function.update onePool.numfree 2 (onePool.numfree 2 - 1)⟩) ∧
    record_dealloc true (((3 : Fin 20) : Nat)) 9 emptyPool
      = (true, ⟨Function.update emptyPool.freelist 3 (9 :: emptyPool.freelist 3),
                Function.update emptyPool.numfree 3 (emptyPool.numfree 3 + 1)⟩) ∧
    record_dealloc true 25 9 onePool = (false, onePool) ∧
    record_dealloc false 3 9 onePool = (false, onePool) := by
  obtain ⟨c1, c2, c3, c4, c5, c6, c7, c8⟩ := pool_spec onePool (by unfold PoolInv; decide)
  obtain ⟨d1, d2, d3, d4, d5, d6, d7, d8⟩ := pool_spec emptyPool (by unfold PoolInv; decide)
  exact ⟨c2 true 3 7, c3 () 2 42 [] (by decide), d5 3 9 (by decide),
         c7 25 9 (by decide), c8 3 9⟩

/-- C8: constructing a record with a negative size or without a
genuine Descriptor fails as a bad internal call; a valid size
exceeding ApgRecord_MAXSIZE fails with the no-memory error before any
storage is obtained, leaving the pool untouched; otherwise the
returned record has every slot unset, the descriptor taken, and the
cached hash set to the unset marker -1. -/
theorem make_record_spec (st : FreelistState) (isB : Bool) (dsc : Option δ) (size : Int) :
    ((size < 0 ∨ dsc = none) → make_record isB dsc size st = (.error .badInternalCall, st)) ∧
    (dsc ≠ none → 0 ≤ size → (ApgRecord_MAXSIZE : Int) < size →
       make_record isB dsc size st = (.error .noMemory, st)) ∧
    (∀ d, dsc = some d → 0 ≤ size → size ≤ (ApgRecord_MAXSIZE : Int) →
       ∃ r, (make_record isB dsc size st).1 = .ok r ∧
         r.ob_item = List.replicate size.toNat none ∧
         r.desc = d ∧ r.self_hash = -1) := by
  refine ⟨?_, ?_, ?_⟩
  · intro h
    cases dsc with
    | none => rfl
    | some d =>
      rcases h with h | h
      · simp only [make_record, dif_pos h]
      · cases h
  · intro hd h0 h1
    cases dsc with
    | none => exact absurd rfl hd
    | some d =>
      have h20 : 20 ≤ ApgRecord_MAXSIZE := maxsize_large
      have hbig : size.toNat > ApgRecord_MAXSIZE := by omega
      have hns : ¬ size < (ApgRecord_MAXSAVESIZE : Int) := by
        simp only [ApgRecord_MAXSAVESIZE]
        omega
      simp only [make_record, dif_neg (by omega : ¬ size < 0)]
      cases isB with
      | false =>
        simp only [Bool.false_eq_true, if_false, if_pos hbig]
      | true =>
        simp only [if_pos rfl, dif_neg hns, if_pos hbig, if_true]
  · intro d hd h0 h1
    subst hd
    have hok : ¬ size.toNat > ApgRecord_MAXSIZE := by omega
    simp only [make_record, dif_neg (by omega : ¬ size < 0)]
    cases isB with
    | false =>
      simp only [Bool.false_eq_true, if_false, if_neg hok]
      exact ⟨_, rfl, rfl, rfl, rfl⟩
    | true =>
      simp only [if_pos rfl]
      by_cases h2 : size < (ApgRecord_MAXSAVESIZE : Int)
      · simp only [dif_pos h2]
        rcases hpa : poolAcquire st
            ⟨size.toNat, by simp only [ApgRecord_MAXSAVESIZE] at h2; omega⟩
          with _ | ⟨b, st2⟩
        · simp only [if_neg hok]
          exact ⟨_, rfl, rfl, rfl, rfl⟩
        · exact ⟨_, rfl, rfl, rfl, rfl⟩
      · simp only [dif_neg h2, if_neg hok]
        exact ⟨_, rfl, rfl, rfl, rfl⟩

theorem make_record_spec_witness :
    make_record true (none : Option Unit) 3 emptyPool
      = (.error .badInternalCall, emptyPool) ∧
    make_record true (some ()) ((ApgRecord_MAXSIZE : Int) + 1) emptyPool
      = (.error .noMemory, emptyPool) ∧
    ∃ r : MadeRecord Unit, (make_record true (some ()) 3 emptyPool).1 = .ok r ∧
      r.ob_item = List.replicate (3 : Int).toNat none ∧ r.desc = () ∧ r.self_hash = -1 := by
  obtain ⟨a1, _, _⟩ := make_record_spec emptyPool true (none : Option Unit) 3
  obtain ⟨_, b2, _⟩ :=
    make_record_spec emptyPool true (some ()) ((ApgRecord_MAXSIZE : Int) + 1)
  obtain ⟨_, _, c3⟩ := make_record_spec emptyPool true (some ()) 3
  refine ⟨a1 (Or.inr rfl), b2 (by simp) (by positivity) (by omega), ?_⟩
  exact c3 () rfl (by decide)
    (by have := maxsize_large; omega)

end ApgRecord
